import Mathlib

/-!
# Verification of the notes-app note store and request handlers

Shallow embedding of the note store and the CRUD request handlers of the
notes-app repository (`src/routes/notes.ts`, `src/routes/notes_mit_kommentaren.ts`,
`src/types/notes.ts`).

The store state is the ordered collection of notes held in the JSON file /
in-memory array: a `List Note`.  `getNotes()` is reading the state and
`writeNotesToFile(ns)` is replacing the state, so each route handler becomes a
function from the current state to a pair of an HTTP status code and the new
state (or the response body, for reads).
-/

/-- The persisted entity from `src/types/notes.ts`: `class Note { id; title; content; user }`. -/
structure Note where
  id : Nat
  title : String
  content : String
  user : String
deriving DecidableEq

/-- `getNoteById(id)` of the store (`services/data`, whose source is mirrored
inline in `notes_mit_kommentaren.ts` GET `/:id`: `notes.find(note => note.id === id)`):
the first note with the given id, or absent. -/
def getNoteById (i : Nat) (s : List Note) : Option Note :=
  s.find? (fun note => note.id == i)

/-- POST `/` from `notes_mit_kommentaren.ts` lines 15-46: read title, content,
user from the body, assign `id = oldNotes.length + 1`, push the new note, write
the collection, respond 204. -/
def postHandler (title content user : String) (s : List Note) : Nat × List Note :=
  let oldNotes := s
  let id := oldNotes.length + 1
  let newNote : Note := ⟨id, title, content, user⟩
  (204, oldNotes ++ [newNote])

/-- GET `/` from `notes.ts` lines 41-47: respond 200 with the notes whose
`user` equals the caller's credential header. -/
def listHandler (user : String) (s : List Note) : Nat × List Note :=
  (200, s.filter (fun note => note.user == user))

/-- GET `/` from `notes_mit_kommentaren.ts` lines 50-63: respond 200 with all
saved notes, unfiltered. -/
def listAllHandler (s : List Note) : Nat × List Note :=
  (200, s)

/-- GET `/:id` from both route files: respond 200 with the note when found,
404 otherwise. -/
def getByIdHandler (i : Nat) (s : List Note) : Nat × Option Note :=
  match getNoteById i s with
  | none => (404, none)
  | some note => (200, some note)

/-- PUT `/:id` from `notes_mit_kommentaren.ts` lines 95-132: 404 (state
untouched) when no note has the id; otherwise filter out every note with the
id, push `new Note(id, title, content, user)`, write, respond 204. -/
def putHandler (i : Nat) (title content user : String) (s : List Note) :
    Nat × List Note :=
  match getNoteById i s with
  | none => (404, s)
  | some _ =>
    let filteredNotes := s.filter (fun note => note.id != i)
    (204, filteredNotes ++ [⟨i, title, content, user⟩])

/-- PATCH `/:id` from `notes_mit_kommentaren.ts` lines 135-172: 404 (state
untouched) when no note has the id; otherwise each body field defaults to the
old note's field (`req.body.title ?? oldNote.title`), then filter out every
note with the id, push the rebuilt note, write, respond 204.  An omitted body
field is `none`. -/
def patchHandler (i : Nat) (title content user : Option String) (s : List Note) :
    Nat × List Note :=
  match getNoteById i s with
  | none => (404, s)
  | some oldNote =>
    let newTitle := title.getD oldNote.title
    let newContent := content.getD oldNote.content
    let newUser := user.getD oldNote.user
    let filteredNotes := s.filter (fun note => note.id != i)
    (204, filteredNotes ++ [⟨i, newTitle, newContent, newUser⟩])

/-- DELETE `/:id` from `notes_mit_kommentaren.ts` lines 175-198: 404 (state
untouched) when no note has the id; otherwise keep only the notes with a
different id, write, respond 204. -/
def deleteHandler (i : Nat) (s : List Note) : Nat × List Note :=
  match getNoteById i s with
  | none => (404, s)
  | some _ => (204, s.filter (fun note => note.id != i))

/-- A mutating request against the store. -/
inductive Op where
  | create (title content user : String)
  | put (id : Nat) (title content user : String)
  | patch (id : Nat) (title content user : Option String)
  | del (id : Nat)
deriving DecidableEq

/-- Whether an operation is a DELETE request. -/
def Op.isDel : Op → Bool
  | .del _ => true
  | _ => false

/-- The state transition of one request: the state component of the
corresponding handler. -/
def step (s : List Note) : Op → List Note
  | .create t c u => (postHandler t c u s).2
  | .put i t c u => (putHandler i t c u s).2
  | .patch i t c u => (patchHandler i t c u s).2
  | .del i => (deleteHandler i s).2

/-- The store state after a sequence of requests, starting from the empty
collection. -/
def run (ops : List Op) : List Note :=
  ops.foldl step []

example : run [Op.create "a" "b" "u1"] = [⟨1, "a", "b", "u1"⟩] := by decide

example :
    (run [Op.create "a" "" "", Op.create "b" "" "", Op.del 1,
      Op.create "c" "" ""]).map Note.id = [2, 2] := by decide

/-! ## Helper lemmas about the store operations -/

lemma getNoteById_mem {i : Nat} {s : List Note} {n : Note}
    (h : getNoteById i s = some n) : n ∈ s :=
  List.mem_of_find?_eq_some h

lemma getNoteById_id {i : Nat} {s : List Note} {n : Note}
    (h : getNoteById i s = some n) : n.id = i := by
  have := List.find?_some h
  simpa using this

lemma getNoteById_eq_none {i : Nat} {s : List Note} :
    getNoteById i s = none ↔ ∀ n ∈ s, n.id ≠ i := by
  simp [getNoteById, List.find?_eq_none]

lemma putHandler_found {i : Nat} {s : List Note} {old : Note}
    (h : getNoteById i s = some old) (t c u : String) :
    putHandler i t c u s =
      (204, s.filter (fun note => note.id != i) ++ [⟨i, t, c, u⟩]) := by
  simp [putHandler, h]

lemma patchHandler_found {i : Nat} {s : List Note} {old : Note}
    (h : getNoteById i s = some old) (t c u : Option String) :
    patchHandler i t c u s =
      (204, s.filter (fun note => note.id != i) ++
        [⟨i, t.getD old.title, c.getD old.content, u.getD old.user⟩]) := by
  simp [patchHandler, h]

lemma deleteHandler_found {i : Nat} {s : List Note} {old : Note}
    (h : getNoteById i s = some old) :
    deleteHandler i s = (204, s.filter (fun note => note.id != i)) := by
  simp [deleteHandler, h]

/-- Filtering out the notes with id `i` does not change lookups of a
different id `j`. -/
lemma find_filtered_ne {j i : Nat} (hji : j ≠ i) (s : List Note) :
    getNoteById j (s.filter (fun note => note.id != i)) = getNoteById j s := by
  induction s with
  | nil => rfl
  | cons a tl ih =>
    simp only [getNoteById] at ih ⊢
    by_cases hai : a.id = i
    · simp [List.filter_cons, List.find?_cons, hai, Ne.symm hji, ih]
    · by_cases haj : a.id = j
      · simp [List.filter_cons, List.find?_cons, hai, haj, hji]
      · simp [List.filter_cons, List.find?_cons, hai, haj, ih]

/-- No note survives the filter with the filtered-out id. -/
lemma find_filtered_self (i : Nat) (s : List Note) :
    getNoteById i (s.filter (fun note => note.id != i)) = none := by
  rw [getNoteById_eq_none]
  intro n hn
  have := (List.mem_filter.1 hn).2
  simpa using this

/-- Looking up id `i` in `filtered ++ [m]` with `m.id = i` yields `m`. -/
lemma find_filtered_append_self {i : Nat} (s : List Note) {m : Note}
    (hm : m.id = i) :
    getNoteById i (s.filter (fun note => note.id != i) ++ [m]) = some m := by
  rw [getNoteById, List.find?_append]
  have h1 := find_filtered_self i s
  rw [getNoteById] at h1
  simp [h1, List.find?_cons, hm]

/-- Looking up an id `j ≠ i` in `filtered ++ [m]` with `m.id = i` is the same
as looking it up in the original collection. -/
lemma find_filtered_append_ne {j i : Nat} (hji : j ≠ i) (s : List Note)
    {m : Note} (hm : m.id = i) :
    getNoteById j (s.filter (fun note => note.id != i) ++ [m]) =
      getNoteById j s := by
  rw [getNoteById, List.find?_append]
  have h2 : [m].find? (fun note => note.id == j) = none := by
    have : (m.id == j) = false := by
      simp only [beq_eq_false_iff_ne]
      exact fun e => hji (hm ▸ e).symm
    simp [List.find?_cons, this]
  rw [h2, Option.or_none]
  exact find_filtered_ne hji s

/-! ## Claim theorems -/

/-- C2: the create operation assigns the new note the id `count + 1`, appends
it to the collection, and the created note carries exactly the supplied
title, content and user (responding 204). -/
theorem create_assigns_count_plus_one (t c u : String) (s : List Note) :
    (postHandler t c u s).1 = 204 ∧
    ∃ n : Note, (postHandler t c u s).2 = s ++ [n] ∧
      n.id = s.length + 1 ∧ n.title = t ∧ n.content = c ∧ n.user = u :=
  ⟨rfl, ⟨s.length + 1, t, c, u⟩, rfl, rfl, rfl, rfl, rfl⟩

/-- C6: the List operation with credential `u` returns status 200 and exactly
the stored notes whose `user` field equals `u`, independent of order. -/
theorem list_filters_by_user (u : String) (s : List Note) :
    (listHandler u s).1 = 200 ∧
    ∀ n : Note, n ∈ (listHandler u s).2 ↔ n ∈ s ∧ n.user = u := by
  refine ⟨rfl, fun n => ?_⟩
  simp [listHandler, List.mem_filter]

/-- C7: on a collection with no note of id `i` (in particular when `i` was
never assigned), `getNoteById` returns the absent value as a normal result,
and the read handler turns this into a 404 with no note in the body. -/
theorem getById_never_assigned_absent (i : Nat) (s : List Note)
    (h : ∀ n ∈ s, n.id ≠ i) :
    getNoteById i s = none ∧ getByIdHandler i s = (404, none) := by
  have hn : getNoteById i s = none := getNoteById_eq_none.2 h
  exact ⟨hn, by simp [getByIdHandler, hn]⟩

theorem getById_never_assigned_absent_witness :
    getNoteById 999 [(⟨1, "a", "b", "u1"⟩ : Note)] = none ∧
    getByIdHandler 999 [(⟨1, "a", "b", "u1"⟩ : Note)] = (404, none) :=
  getById_never_assigned_absent 999 [⟨1, "a", "b", "u1"⟩] (by decide)

/-- C8: when no note has id `i`, the full update, partial update and delete
handlers all respond 404 and return the collection unchanged. -/
theorem missing_id_404_no_mutation (i : Nat) (s : List Note)
    (h : getNoteById i s = none) (t c u : String) (bt bc bu : Option String) :
    putHandler i t c u s = (404, s) ∧
    patchHandler i bt bc bu s = (404, s) ∧
    deleteHandler i s = (404, s) := by
  refine ⟨?_, ?_, ?_⟩ <;> simp [putHandler, patchHandler, deleteHandler, h]

theorem missing_id_404_no_mutation_witness :
    putHandler 5 "t" "c" "u" [(⟨1, "a", "b", "u1"⟩ : Note)] =
      (404, [(⟨1, "a", "b", "u1"⟩ : Note)]) ∧
    patchHandler 5 none none none [(⟨1, "a", "b", "u1"⟩ : Note)] =
      (404, [(⟨1, "a", "b", "u1"⟩ : Note)]) ∧
    deleteHandler 5 [(⟨1, "a", "b", "u1"⟩ : Note)] =
      (404, [(⟨1, "a", "b", "u1"⟩ : Note)]) :=
  missing_id_404_no_mutation 5 [⟨1, "a", "b", "u1"⟩] (by decide) "t" "c" "u"
    none none none

/-- C5: when a note with id `i` exists, DELETE responds 204; afterwards
`getNoteById i` is absent, no note with id `i` is in the collection, and a
second DELETE of the same id responds 404 leaving the state unchanged. -/
theorem delete_then_absent_second_404 (i : Nat) (s : List Note)
    (h : (getNoteById i s).isSome) :
    (deleteHandler i s).1 = 204 ∧
    getNoteById i (deleteHandler i s).2 = none ∧
    (∀ n ∈ (deleteHandler i s).2, n.id ≠ i) ∧
    deleteHandler i (deleteHandler i s).2 = (404, (deleteHandler i s).2) := by
  obtain ⟨old, hold⟩ := Option.isSome_iff_exists.1 h
  rw [deleteHandler_found hold]
  have habs : ∀ n ∈ s.filter (fun note => note.id != i), n.id ≠ i := by
    intro n hn
    have := (List.mem_filter.1 hn).2
    simpa using this
  have hnone := find_filtered_self i s
  exact ⟨rfl, hnone, habs, by simp [deleteHandler, hnone]⟩

theorem delete_then_absent_second_404_witness :
    (deleteHandler 1 [(⟨1, "a", "b", "u1"⟩ : Note)]).1 = 204 ∧
    getNoteById 1 (deleteHandler 1 [(⟨1, "a", "b", "u1"⟩ : Note)]).2 = none ∧
    (∀ n ∈ (deleteHandler 1 [(⟨1, "a", "b", "u1"⟩ : Note)]).2, n.id ≠ 1) ∧
    deleteHandler 1 (deleteHandler 1 [(⟨1, "a", "b", "u1"⟩ : Note)]).2 =
      (404, (deleteHandler 1 [(⟨1, "a", "b", "u1"⟩ : Note)]).2) :=
  delete_then_absent_second_404 1 [⟨1, "a", "b", "u1"⟩] (by decide)

/-- C9: a partial update of an existing id responds 204, sets each supplied
body field to its supplied value and keeps each omitted field at the current
note's value. -/
theorem patch_keeps_omitted_fields (i : Nat) (bt bc bu : Option String)
    (s : List Note) (old : Note) (h : getNoteById i s = some old) :
    (patchHandler i bt bc bu s).1 = 204 ∧
    getNoteById i (patchHandler i bt bc bu s).2 =
      some ⟨i, bt.getD old.title, bc.getD old.content, bu.getD old.user⟩ := by
  rw [patchHandler_found h]
  exact ⟨rfl, find_filtered_append_self s rfl⟩

theorem patch_keeps_omitted_fields_witness :
    (patchHandler 1 (some "T2") none none [(⟨1, "a", "b", "u1"⟩ : Note)]).1 =
      204 ∧
    getNoteById 1
        (patchHandler 1 (some "T2") none none [(⟨1, "a", "b", "u1"⟩ : Note)]).2 =
      some ⟨1, (some "T2").getD "a", Option.getD none "b", Option.getD none "u1"⟩ :=
  patch_keeps_omitted_fields 1 (some "T2") none none [⟨1, "a", "b", "u1"⟩]
    ⟨1, "a", "b", "u1"⟩ (by decide)

/-- C4: a partial update of an existing id with every body field omitted
leaves the store lookup-equivalent to the previous state: every id resolves
to exactly the same note value as before. -/
theorem patch_all_omitted_noop (i : Nat) (s : List Note) (old : Note)
    (h : getNoteById i s = some old) :
    ∀ j : Nat, getNoteById j (patchHandler i none none none s).2 =
      getNoteById j s := by
  intro j
  rw [patchHandler_found h]
  by_cases hj : j = i
  · subst hj
    have hid := getNoteById_id h
    refine Eq.trans (find_filtered_append_self s rfl) ?_
    rw [h]
    cases old
    simp_all
  · exact find_filtered_append_ne hj s rfl

theorem patch_all_omitted_noop_witness :
    getNoteById 1
        (patchHandler 1 none none none
          [(⟨1, "a", "b", "u1"⟩ : Note), ⟨2, "x", "y", "u2"⟩]).2 =
      getNoteById 1 [(⟨1, "a", "b", "u1"⟩ : Note), ⟨2, "x", "y", "u2"⟩] ∧
    getNoteById 2
        (patchHandler 1 none none none
          [(⟨1, "a", "b", "u1"⟩ : Note), ⟨2, "x", "y", "u2"⟩]).2 =
      getNoteById 2 [(⟨1, "a", "b", "u1"⟩ : Note), ⟨2, "x", "y", "u2"⟩] :=
  ⟨patch_all_omitted_noop 1 [⟨1, "a", "b", "u1"⟩, ⟨2, "x", "y", "u2"⟩]
      ⟨1, "a", "b", "u1"⟩ (by decide) 1,
    patch_all_omitted_noop 1 [⟨1, "a", "b", "u1"⟩, ⟨2, "x", "y", "u2"⟩]
      ⟨1, "a", "b", "u1"⟩ (by decide) 2⟩

/-- C10: full and partial update of an existing id rebuild the note and move
it to the end: the new state is the old collection with every note of that id
filtered out, followed by the rebuilt note as the last element. -/
theorem update_repositions_to_end (i : Nat) (t c u : String)
    (bt bc bu : Option String) (s : List Note) (old : Note)
    (h : getNoteById i s = some old) :
    (putHandler i t c u s).2 =
      s.filter (fun note => note.id != i) ++ [⟨i, t, c, u⟩] ∧
    (patchHandler i bt bc bu s).2 =
      s.filter (fun note => note.id != i) ++
        [⟨i, bt.getD old.title, bc.getD old.content, bu.getD old.user⟩] := by
  rw [putHandler_found h, patchHandler_found h]
  exact ⟨rfl, rfl⟩

theorem update_repositions_to_end_witness :
    (putHandler 1 "t" "c" "u"
        [(⟨1, "a", "b", "u1"⟩ : Note), ⟨2, "x", "y", "u2"⟩]).2 =
      ([(⟨1, "a", "b", "u1"⟩ : Note), ⟨2, "x", "y", "u2"⟩].filter
        (fun note => note.id != 1)) ++ [⟨1, "t", "c", "u"⟩] ∧
    (patchHandler 1 none (some "C2") none
        [(⟨1, "a", "b", "u1"⟩ : Note), ⟨2, "x", "y", "u2"⟩]).2 =
      ([(⟨1, "a", "b", "u1"⟩ : Note), ⟨2, "x", "y", "u2"⟩].filter
        (fun note => note.id != 1)) ++
        [⟨1, Option.getD none "a", (some "C2").getD "b", Option.getD none "u1"⟩] :=
  update_repositions_to_end 1 "t" "c" "u" none (some "C2") none
    [⟨1, "a", "b", "u1"⟩, ⟨2, "x", "y", "u2"⟩] ⟨1, "a", "b", "u1"⟩ (by decide)

/-! ## Distinct-id states and the reachability invariant -/

/-- In a collection with pairwise distinct ids, filtering out the id of a
member removes exactly one note. -/
lemma filter_length_of_nodup {s : List Note} {old : Note}
    (hnd : (s.map Note.id).Nodup) (hm : old ∈ s) :
    (s.filter (fun note => note.id != old.id)).length + 1 = s.length := by
  induction s with
  | nil => cases hm
  | cons a tl ih =>
    simp only [List.map_cons, List.nodup_cons] at hnd
    obtain ⟨ha, htl⟩ := hnd
    rcases List.mem_cons.1 hm with rfl | hm2
    · have hfix : tl.filter (fun note => note.id != old.id) = tl := by
        rw [List.filter_eq_self]
        intro n hn
        simp only [bne_iff_ne, ne_eq]
        intro e
        exact ha (e ▸ List.mem_map_of_mem Note.id hn)
      simp [List.filter_cons, hfix]
    · have hne : a.id ≠ old.id := by
        intro e
        exact ha (e ▸ List.mem_map_of_mem Note.id hm2)
      have hlen := ih htl hm2
      simp only [List.filter_cons, bne_iff_ne, ne_eq, hne, not_false_iff,
        if_true, List.length_cons]
      omega

/-- The invariant maintained by delete-free request sequences: ids are
pairwise distinct and bounded by the collection size. -/
def storeInv (s : List Note) : Prop :=
  (s.map Note.id).Nodup ∧ ∀ n ∈ s, n.id ≤ s.length

lemma storeInv_nil : storeInv [] := by
  constructor
  · simp
  · intro n hn
    cases hn

/-- Replacing the note with id `i` by a rebuilt note with the same id (the
shared shape of the PUT and PATCH handlers) preserves the invariant. -/
lemma storeInv_replace {s : List Note} (hinv : storeInv s) {i : Nat}
    {old : Note} (h : getNoteById i s = some old) (m : Note) (hm : m.id = i) :
    storeInv (s.filter (fun note => note.id != i) ++ [m]) := by
  obtain ⟨hnd, hbd⟩ := hinv
  have hid := getNoteById_id h
  have hmem := getNoteById_mem h
  have hlen : (s.filter (fun note => note.id != i)).length + 1 = s.length := by
    have := filter_length_of_nodup hnd hmem
    rwa [hid] at this
  constructor
  · rw [List.map_append, List.nodup_append]
    refine ⟨((List.filter_sublist s).map Note.id).nodup hnd, by simp, ?_⟩
    intro a hafil hasing
    simp only [List.map_cons, List.map_nil, List.mem_singleton] at hasing
    obtain ⟨n, hn, rfl⟩ := List.mem_map.1 hafil
    have := (List.mem_filter.1 hn).2
    rw [hasing, hm] at this
    simp at this
  · intro n hn
    rcases List.mem_append.1 hn with hn1 | hn2
    · have hmem2 := (List.mem_filter.1 hn1).1
      have := hbd n hmem2
      simp only [List.length_append, List.length_singleton]
      omega
    · simp only [List.mem_singleton] at hn2
      subst hn2
      have := hbd old hmem
      simp only [List.length_append, List.length_singleton, hm, hid]
      omega

/-- Any single delete-free request preserves the invariant. -/
lemma storeInv_step {s : List Note} (hinv : storeInv s) {op : Op}
    (hop : op.isDel = false) : storeInv (step s op) := by
  obtain ⟨hnd, hbd⟩ := hinv
  cases op with
  | create t c u =>
    constructor
    · simp only [step, postHandler, List.map_append, List.map_cons,
        List.map_nil]
      rw [List.nodup_append]
      refine ⟨hnd, by simp, ?_⟩
      intro a ha hasing
      simp only [List.mem_singleton] at hasing
      obtain ⟨n, hn, rfl⟩ := List.mem_map.1 ha
      have := hbd n hn
      omega
    · intro n hn
      simp only [step, postHandler, List.length_append, List.length_singleton]
      rcases List.mem_append.1 hn with hn1 | hn2
      · have := hbd n hn1
        omega
      · simp only [List.mem_singleton] at hn2
        subst hn2
        simp
  | put i t c u =>
    cases hfind : getNoteById i s with
    | none => simpa [step, putHandler, hfind] using ⟨hnd, hbd⟩
    | some old =>
      have := storeInv_replace ⟨hnd, hbd⟩ hfind ⟨i, t, c, u⟩ rfl
      simpa [step, putHandler_found hfind] using this
  | patch i t c u =>
    cases hfind : getNoteById i s with
    | none => simpa [step, patchHandler, hfind] using ⟨hnd, hbd⟩
    | some old =>
      have := storeInv_replace ⟨hnd, hbd⟩ hfind
        ⟨i, t.getD old.title, c.getD old.content, u.getD old.user⟩ rfl
      simpa [step, patchHandler_found hfind] using this
  | del i => simp [Op.isDel] at hop

lemma storeInv_foldl :
    ∀ ops : List Op, (∀ op ∈ ops, op.isDel = false) →
      ∀ s, storeInv s → storeInv (List.foldl step s ops) := by
  intro ops
  induction ops with
  | nil => intro _ s hs; exact hs
  | cons op tl ih =>
    intro h s hs
    rw [List.foldl_cons]
    exact ih (fun o ho => h o (List.mem_cons_of_mem _ ho)) (step s op)
      (storeInv_step hs (h op (List.mem_cons_self _ _)))

/-- A present id survives any single delete-free request. -/
lemma id_persists_step {s : List Note} {op : Op} (hop : op.isDel = false)
    {i : Nat} (h : ∃ n ∈ s, n.id = i) : ∃ n ∈ step s op, n.id = i := by
  obtain ⟨n, hn, hni⟩ := h
  cases op with
  | create t c u =>
    exact ⟨n, List.mem_append_left _ hn, hni⟩
  | put j t c u =>
    cases hfind : getNoteById j s with
    | none =>
      refine ⟨n, ?_, hni⟩
      simp [step, putHandler, hfind, hn]
    | some old =>
      by_cases hij : i = j
      · refine ⟨⟨j, t, c, u⟩, ?_, hij.symm⟩
        simp [step, putHandler_found hfind]
      · refine ⟨n, ?_, hni⟩
        simp only [step, putHandler_found hfind]
        refine List.mem_append_left _ (List.mem_filter.2 ⟨hn, ?_⟩)
        simp [hni, hij]
  | patch j t c u =>
    cases hfind : getNoteById j s with
    | none =>
      refine ⟨n, ?_, hni⟩
      simp [step, patchHandler, hfind, hn]
    | some old =>
      by_cases hij : i = j
      · refine ⟨⟨j, t.getD old.title, c.getD old.content, u.getD old.user⟩,
          ?_, hij.symm⟩
        simp [step, patchHandler_found hfind]
      · refine ⟨n, ?_, hni⟩
        simp only [step, patchHandler_found hfind]
        refine List.mem_append_left _ (List.mem_filter.2 ⟨hn, ?_⟩)
        simp [hni, hij]
  | del j => simp [Op.isDel] at hop

lemma id_persists_foldl :
    ∀ ops : List Op, (∀ op ∈ ops, op.isDel = false) →
      ∀ s i, (∃ n ∈ s, n.id = i) →
        ∃ n ∈ List.foldl step s ops, n.id = i := by
  intro ops
  induction ops with
  | nil => intro _ s i hs; exact hs
  | cons op tl ih =>
    intro h s i hs
    rw [List.foldl_cons]
    exact ih (fun o ho => h o (List.mem_cons_of_mem _ ho)) (step s op) i
      (id_persists_step (h op (List.mem_cons_self _ _)) hs)

/-- C1 (counterexample): the id-by-count scheme reassigns ids after a delete.
The reachable request sequence create, create, delete 1, create produces a
collection whose ids are not pairwise distinct (two notes with id 2). -/
theorem id_collision_after_delete :
    ¬ ((run [Op.create "a" "" "", Op.create "b" "" "", Op.del 1,
        Op.create "c" "" ""]).map Note.id).Nodup := by
  decide

/-- C1 (amended): for every store state reached by a delete-free request
sequence, ids are pairwise distinct; moreover every id present in such a state
persists under any further delete-free requests (updates rebuild the target
note with the same id). -/
theorem unique_ids_without_delete (ops : List Op)
    (h : ∀ op ∈ ops, op.isDel = false) :
    ((run ops).map Note.id).Nodup ∧
    ∀ ops2 : List Op, (∀ op ∈ ops2, op.isDel = false) →
      ∀ i : Nat, (∃ n ∈ run ops, n.id = i) →
        ∃ n ∈ run (ops ++ ops2), n.id = i := by
  constructor
  · exact (storeInv_foldl ops h [] storeInv_nil).1
  · intro ops2 h2 i hi
    rw [run, List.foldl_append]
    exact id_persists_foldl ops2 h2 (List.foldl step [] ops) i hi

theorem unique_ids_without_delete_witness :
    ((run [Op.create "a" "b" "u1", Op.put 1 "t" "c" "u"]).map Note.id).Nodup ∧
    ∀ ops2 : List Op, (∀ op ∈ ops2, op.isDel = false) →
      ∀ i : Nat,
        (∃ n ∈ run [Op.create "a" "b" "u1", Op.put 1 "t" "c" "u"], n.id = i) →
        ∃ n ∈ run ([Op.create "a" "b" "u1", Op.put 1 "t" "c" "u"] ++ ops2),
          n.id = i :=
  unique_ids_without_delete [Op.create "a" "b" "u1", Op.put 1 "t" "c" "u"]
    (by decide)

/-- C3 (counterexample): on the reachable state create, create, delete 1,
create — which holds two notes with id 2 — updating id 2 does not leave every
other note unchanged: the note `⟨2, "c", "", ""⟩`, distinct from the looked-up
target `⟨2, "b", "", ""⟩`, is destroyed by the update. -/
theorem update_frame_counterexample :
    getNoteById 2 (run [Op.create "a" "" "", Op.create "b" "" "", Op.del 1,
        Op.create "c" "" ""]) = some ⟨2, "b", "", ""⟩ ∧
    (⟨2, "c", "", ""⟩ : Note) ∈ run [Op.create "a" "" "", Op.create "b" "" "",
        Op.del 1, Op.create "c" "" ""] ∧
    (⟨2, "c", "", ""⟩ : Note) ≠ ⟨2, "b", "", ""⟩ ∧
    (⟨2, "c", "", ""⟩ : Note) ∉
      (putHandler 2 "t" "c" "u" (run [Op.create "a" "" "", Op.create "b" "" "",
        Op.del 1, Op.create "c" "" ""])).2 := by
  decide

/-- C3 (amended): on a store state whose ids are pairwise distinct and which
contains a note with id `i`, the full update of `i` keeps every other note
value (membership in both directions and lookups of other ids unchanged),
rebuilds exactly the targeted note with the same id and the supplied fields,
and preserves the collection size. -/
theorem update_frame_nodup (i : Nat) (t c u : String) (s : List Note)
    (old : Note) (hnd : (s.map Note.id).Nodup)
    (h : getNoteById i s = some old) :
    (∀ n ∈ s, n.id ≠ i → n ∈ (putHandler i t c u s).2) ∧
    (∀ n ∈ (putHandler i t c u s).2, n.id ≠ i → n ∈ s) ∧
    (∀ j : Nat, j ≠ i →
      getNoteById j (putHandler i t c u s).2 = getNoteById j s) ∧
    getNoteById i (putHandler i t c u s).2 = some ⟨i, t, c, u⟩ ∧
    (putHandler i t c u s).2.length = s.length := by
  rw [putHandler_found h]
  refine ⟨?_, ?_, ?_, ?_, ?_⟩
  · intro n hn hni
    exact List.mem_append_left _ (List.mem_filter.2 ⟨hn, by simpa using hni⟩)
  · intro n hn hni
    rcases List.mem_append.1 hn with hn1 | hn2
    · exact (List.mem_filter.1 hn1).1
    · simp only [List.mem_singleton] at hn2
      subst hn2
      exact absurd rfl hni
  · intro j hj
    exact find_filtered_append_ne hj s rfl
  · exact find_filtered_append_self s rfl
  · have hid := getNoteById_id h
    have hmem := getNoteById_mem h
    have hlen := filter_length_of_nodup hnd hmem
    rw [hid] at hlen
    simp only [List.length_append, List.length_singleton]
    omega

theorem update_frame_nodup_witness :
    (∀ n ∈ [(⟨1, "a", "b", "u1"⟩ : Note), ⟨2, "x", "y", "u2"⟩], n.id ≠ 1 →
      n ∈ (putHandler 1 "t" "c" "u"
        [(⟨1, "a", "b", "u1"⟩ : Note), ⟨2, "x", "y", "u2"⟩]).2) ∧
    (∀ n ∈ (putHandler 1 "t" "c" "u"
        [(⟨1, "a", "b", "u1"⟩ : Note), ⟨2, "x", "y", "u2"⟩]).2, n.id ≠ 1 →
      n ∈ [(⟨1, "a", "b", "u1"⟩ : Note), ⟨2, "x", "y", "u2"⟩]) ∧
    (∀ j : Nat, j ≠ 1 →
      getNoteById j (putHandler 1 "t" "c" "u"
        [(⟨1, "a", "b", "u1"⟩ : Note), ⟨2, "x", "y", "u2"⟩]).2 =
      getNoteById j [(⟨1, "a", "b", "u1"⟩ : Note), ⟨2, "x", "y", "u2"⟩]) ∧
    getNoteById 1 (putHandler 1 "t" "c" "u"
        [(⟨1, "a", "b", "u1"⟩ : Note), ⟨2, "x", "y", "u2"⟩]).2 =
      some ⟨1, "t", "c", "u"⟩ ∧
    (putHandler 1 "t" "c" "u"
        [(⟨1, "a", "b", "u1"⟩ : Note), ⟨2, "x", "y", "u2"⟩]).2.length =
      ([(⟨1, "a", "b", "u1"⟩ : Note), ⟨2, "x", "y", "u2"⟩] : List Note).length :=
  update_frame_nodup 1 "t" "c" "u" [⟨1, "a", "b", "u1"⟩, ⟨2, "x", "y", "u2"⟩]
    ⟨1, "a", "b", "u1"⟩ (by decide) (by decide)
